import Mathlib

/-!
Verification of the order-entry core of the Lending repository
(`src/order_entry.py`): execution-status decoding, order construction,
the two-phase ledger write (`preliminary_log_order` / `final_log_order`)
and the batch submission session (`OESession.submit_orders`).

Modelling conventions:
* Python ints are `Int` (or `Nat` for bitmasks), Python floats are `Rat`
  (the code only compares amounts, never does float arithmetic).
* Raised exceptions become `Except` error values.
* Database effects are modelled by an explicit ledger state
  (`List OrderRow`) plus an event trace (`Event`) recording inserts,
  commits and the external client invocation, in program order.
* `current_timestamp` is an abstract `now : Nat` parameter.
-/

namespace Lending

/-- The flag values of `ExecutionStatus` in `src/order_entry.py`
(each status name is assigned a distinct power of two). -/
def ExecutionStatus.from_str (s : String) : Option Nat :=
  if s = "ORDER_FULFILLED" then some 1
  else if s = "LOAN_AMNT_EXCEEDED" then some 2
  else if s = "NOT_AN_INFUNDING_LOAN" then some 4
  else if s = "REQUESTED_AMNT_LOW" then some 8
  else if s = "REQUESTED_AMNT_ROUNDED" then some 16
  else if s = "AUGMENTED_BY_MERGE" then some 32
  else if s = "ELIM_BY_MERGE" then some 64
  else if s = "INSUFFICIENT_CASH" then some 128
  else if s = "NOT_AN_INVESTOR" then some 256
  else if s = "NOT_A_VALID_INVESTMENT" then some 512
  else if s = "NOTE_ADDED_TO_PORTFOLIO" then some 1024
  else if s = "NOT_A_VALID_PORTFOLIO" then some 2048
  else if s = "ERROR_ADDING_NOTE_TO_PORTFOLIO" then some 4096
  else if s = "SYSTEM_BUSY" then some 8192
  else if s = "UNKNOWN_ERROR" then some 16384
  else none

/-- Errors raised inside `get_execution_code`:
`unrecognizedStatus` models the lookup failure of
`ExecutionStatus.from_str` on an unknown name (`StringEnum.from_str`
lives in `lendingclub.types`, outside this repository — modelled from
the spec: an unrecognized status name is a hard decode failure);
`emptyReduce` models the `TypeError` that Python's
`reduce(ior, [])` raises on an empty sequence with no initial value. -/
inductive DecodeError where
  | unrecognizedStatus (name : String)
  | emptyReduce
deriving DecidableEq, Repr

/-- The list comprehension
`[ExecutionStatus.from_str(m).value for m in execution_list]` in
`get_execution_code`: resolves names left to right, raising on the
first unrecognized one. -/
def decodeList : List String → Except DecodeError (List Nat)
  | [] => .ok []
  | s :: rest =>
    match ExecutionStatus.from_str s with
    | none => .error (.unrecognizedStatus s)
    | some v =>
      match decodeList rest with
      | .error e => .error e
      | .ok vs => .ok (v :: vs)

/-- Python's `reduce(ior, ...)`: a left fold of bitwise-or seeded with
the first element; with no initial value it raises `TypeError` on an
empty sequence. -/
def reduce_ior : List Nat → Except DecodeError Nat
  | [] => .error .emptyReduce
  | v :: vs => .ok (vs.foldl (fun a b => a ||| b) v)

/-- `get_execution_code` in `src/order_entry.py`: decode every status
name, then `reduce(ior, encoded_execution_list)`. -/
def get_execution_code (execution_list : List String) : Except DecodeError Nat :=
  match decodeList execution_list with
  | .error e => .error e
  | .ok encoded_execution_list => reduce_ior encoded_execution_list

/-- The `ValueError` raised by `Order.__init__` on a non-positive
amount. -/
inductive ValidationError where
  | amountNotPositive
deriving DecidableEq, Repr

/-- The `Order` object of `src/order_entry.py`. -/
structure Order where
  loan_id : Int
  amount : Rat
  portfolio_id : Option Int
deriving DecidableEq, Repr

/-- `Order.__init__`: raises `ValueError` when `amount <= 0`, otherwise
stores the three fields. -/
def Order.init (loan_id : Int) (amount : Rat) (portfolio_id : Option Int) :
    Except ValidationError Order :=
  if amount ≤ 0 then .error .amountNotPositive
  else .ok ⟨loan_id, amount, portfolio_id⟩

/-- The `LCOrder` protocol object built in `submit_orders`
(`LCOrder(loanId=..., requestedAmount=..., portfolioId=...)`). -/
structure LCOrder where
  loanId : Int
  requestedAmount : Rat
  portfolioId : Option Int
deriving DecidableEq, Repr

/-- A row of the `orders` table. `preliminary_log_order` inserts
`(loan_id, client_id, requested_amount)`; the remaining columns start
`NULL` and are filled by `final_log_order`. -/
structure OrderRow where
  loan_id : Int
  client_id : Int
  requested_amount : Rat
  invested_amount : Option Rat
  ex_order_id : Option String
  time_acknowledged : Option Nat
  execution_code : Option Nat
deriving DecidableEq, Repr

/-- One `lc_order_confirmation` of the acknowledgment returned by the
marketplace client. -/
structure OrderConfirmation where
  loanId : Int
  requestedAmount : Rat
  investedAmount : Rat
  executionStatus : List String
deriving DecidableEq, Repr

/-- The acknowledgment `lc_submit_order_ack`: a shared
`orderInstructId` and the list of per-order confirmations. -/
structure Ack where
  orderInstructId : String
  orderConfirmations : List OrderConfirmation
deriving DecidableEq, Repr

/-- The `order_dict` built for each confirmation in
`final_log_order` (the parameters of one `UPDATE` statement). -/
structure OrderDict where
  loan_id : Int
  requested_amount : Rat
  invested_amount : Rat
  execution_code : Nat
  instruct_id : String
deriving DecidableEq, Repr

/-- Observable side effects of a session call, in program order. -/
inductive Event where
  | insert (row : OrderRow)
  | commit
  | clientCall (investorId : Int) (orderPack : List LCOrder)
  | update (od : OrderDict)
deriving DecidableEq, Repr

/-- The `WHERE` clause of the `UPDATE` in `final_log_order`:
`loan_id = %(loan_id)s and requested_amount = %(requested_amount)s and
execution_code IS NULL`. -/
def rowMatches (loan_id : Int) (requested_amount : Rat) (r : OrderRow) : Bool :=
  decide (r.loan_id = loan_id) && decide (r.requested_amount = requested_amount)
    && decide (r.execution_code = none)

/-- The `SET` clause of the `UPDATE` in `final_log_order`:
`(invested_amount, ex_order_id, time_acknowledged, execution_code) =
(%(invested_amount)s, %(instruct_id)s, current_timestamp,
%(execution_code)s)`. -/
def updateRow (now : Nat) (od : OrderDict) (r : OrderRow) : OrderRow :=
  { r with invested_amount := some od.invested_amount,
           ex_order_id := some od.instruct_id,
           time_acknowledged := some now,
           execution_code := some od.execution_code }

/-- One `UPDATE` statement of the `executemany` in `final_log_order`:
every row satisfying the match predicate is overwritten, the rest are
untouched. -/
def applyUpdate (now : Nat) (db : List OrderRow) (od : OrderDict) : List OrderRow :=
  db.map fun r =>
    if rowMatches od.loan_id od.requested_amount r then updateRow now od r else r

/-- Number of ledger rows the `UPDATE` for `(loan_id, requested_amount)`
would match (the affected-row count of one statement). -/
def countMatches (loan_id : Int) (requested_amount : Rat) (db : List OrderRow) : Nat :=
  (db.filter (rowMatches loan_id requested_amount)).length

/-- The first loop of `final_log_order`: builds `order_list`, decoding
each confirmation's `executionStatus` as it goes; the first decode
failure raises before any cursor is opened. -/
def buildOrderList (instruct_id : String) :
    List OrderConfirmation → Except DecodeError (List OrderDict)
  | [] => .ok []
  | c :: rest =>
    match get_execution_code c.executionStatus with
    | .error e => .error e
    | .ok code =>
      match buildOrderList instruct_id rest with
      | .error e => .error e
      | .ok ods =>
        .ok (⟨c.loanId, c.requestedAmount, c.investedAmount, code, instruct_id⟩ :: ods)

/-- `OESession.final_log_order`: decode every confirmation into
`order_list`, then run the `executemany` of `UPDATE`s and commit.
Returns the resulting ledger, the events of the call, and the
normal/raised outcome; on a decode error the ledger is returned
untouched with no events (the exception propagates before the cursor
is opened). -/
def final_log_order (now : Nat) (db : List OrderRow) (ack : Ack) :
    (List OrderRow × List Event) × Except DecodeError Unit :=
  match buildOrderList ack.orderInstructId ack.orderConfirmations with
  | .error e => ((db, []), .error e)
  | .ok order_list =>
    ((order_list.foldl (applyUpdate now) db,
      order_list.map Event.update ++ [Event.commit]), .ok ())

/-- The intent row inserted by `preliminary_log_order` for one
`lc_order`: only `(loan_id, client_id, requested_amount)` are set, all
outcome columns are `NULL`. -/
def intentRow (client_id : Int) (lc_order : LCOrder) : OrderRow :=
  ⟨lc_order.loanId, client_id, lc_order.requestedAmount, none, none, none, none⟩

/-- `OESession.preliminary_log_order`: one `INSERT` per `lc_order`,
then a single commit. Returns the inserted rows and the events. -/
def preliminary_log_order (client_id : Int) (order_pack : List LCOrder) :
    List OrderRow × List Event :=
  (order_pack.map (intentRow client_id),
   order_pack.map (fun lc => Event.insert (intentRow client_id lc)) ++ [Event.commit])

/-- The `LCOrder(loanId=order.loan_id, requestedAmount=order.amount,
portfolioId=order.portfolio_id)` construction in `submit_orders`. -/
def toLCOrder (o : Order) : LCOrder := ⟨o.loan_id, o.amount, o.portfolio_id⟩

/-- The gating loop of `submit_orders`: build each `LCOrder`, append it
to `order_pack`, then ask the risk manager; a failed check returns
immediately (`none`), discarding the pack. -/
def gateLoop (check : Order → Bool) : List Order → List LCOrder → Option (List LCOrder)
  | [], order_pack => some order_pack
  | o :: rest, order_pack =>
    let lc_order : LCOrder := toLCOrder o
    let order_pack' := order_pack ++ [lc_order]
    if check o then gateLoop check rest order_pack' else none

/-- `OESession.submit_orders`. `check` is `RiskManager.instance().check`
and `clientAck` is `self.client.submit_order` (both external). The
result is the final ledger, the event trace of the call, and the
normal/raised outcome — a bare `return` (risk rejection) and a full
run both end in `.ok ()`. -/
def submit_orders (check : Order → Bool) (clientAck : Int → List LCOrder → Ack)
    (now : Nat) (db : List OrderRow) (investor_id client_id : Int)
    (orders : List Order) : (List OrderRow × List Event) × Except DecodeError Unit :=
  match gateLoop check orders [] with
  | none => ((db, []), .ok ())
  | some order_pack =>
    let (rows, ev1) := preliminary_log_order client_id order_pack
    let db1 := db ++ rows
    let ack := clientAck investor_id order_pack
    let ev2 := ev1 ++ [Event.clientCall investor_id order_pack]
    match final_log_order now db1 ack with
    | ((dbE, evF), .error e) => ((dbE, ev2 ++ evF), .error e)
    | ((db2, evF), .ok ()) => ((db2, ev2 ++ evF), .ok ())

/-- `OESession.submit_order`: wraps the order in a one-element batch. -/
def submit_order (check : Order → Bool) (clientAck : Int → List LCOrder → Ack)
    (now : Nat) (db : List OrderRow) (investor_id client_id : Int)
    (order : Order) : (List OrderRow × List Event) × Except DecodeError Unit :=
  submit_orders check clientAck now db investor_id client_id [order]

/-! ## Helper lemmas about the codec -/

/-- Bitwise-or of a whole list, seeded with `0`. -/
def orAll (l : List Nat) : Nat := l.foldl (fun a b => a ||| b) 0

theorem foldl_lor (l : List Nat) : ∀ a : Nat,
    l.foldl (fun a b => a ||| b) a = a ||| orAll l := by
  induction l with
  | nil => intro a; simp [orAll]
  | cons x xs ih =>
    intro a
    have hx : orAll (x :: xs) = x ||| orAll xs := by
      show xs.foldl _ (0 ||| x) = _
      rw [ih (0 ||| x), Nat.zero_or]
    rw [List.foldl_cons, ih (a ||| x), hx, Nat.lor_assoc]

theorem orAll_cons (x : Nat) (l : List Nat) : orAll (x :: l) = x ||| orAll l := by
  show l.foldl _ (0 ||| x) = _
  rw [foldl_lor l (0 ||| x), Nat.zero_or]

theorem orAll_perm {l l' : List Nat} (h : l.Perm l') : orAll l = orAll l' := by
  induction h with
  | nil => rfl
  | cons x _ ih => rw [orAll_cons, orAll_cons, ih]
  | swap x y l =>
    rw [orAll_cons, orAll_cons, orAll_cons, orAll_cons,
      ← Nat.lor_assoc, ← Nat.lor_assoc, Nat.lor_comm y x]
  | trans _ _ ih1 ih2 => rw [ih1, ih2]

theorem orAll_testBit (l : List Nat) (i : Nat) :
    (orAll l).testBit i = l.any fun v => v.testBit i := by
  induction l with
  | nil => simp [orAll]
  | cons x xs ih => rw [orAll_cons, Nat.testBit_lor, ih]; simp

theorem decodeList_ok (l : List String)
    (h : ∀ s ∈ l, (ExecutionStatus.from_str s).isSome = true) :
    decodeList l = .ok (l.map fun s => (ExecutionStatus.from_str s).getD 0) := by
  induction l with
  | nil => rfl
  | cons x rest ih =>
    obtain ⟨v, hv⟩ := Option.isSome_iff_exists.mp (h x (List.mem_cons_self x rest))
    have ihr := ih fun s hs => h s (List.mem_cons_of_mem x hs)
    simp [decodeList, hv, ihr]

theorem get_execution_code_ok (l : List String) (hne : l ≠ [])
    (h : ∀ s ∈ l, (ExecutionStatus.from_str s).isSome = true) :
    get_execution_code l =
      .ok (orAll (l.map fun s => (ExecutionStatus.from_str s).getD 0)) := by
  cases l with
  | nil => exact absurd rfl hne
  | cons x rest =>
    have hd := decodeList_ok (x :: rest) h
    unfold get_execution_code
    rw [hd]
    show reduce_ior ((ExecutionStatus.from_str x).getD 0 ::
      rest.map fun s => (ExecutionStatus.from_str s).getD 0) = _
    show Except.ok ((rest.map fun s => (ExecutionStatus.from_str s).getD 0).foldl
      (fun a b => a ||| b) ((ExecutionStatus.from_str x).getD 0)) = _
    rw [foldl_lor, List.map_cons, orAll_cons]

theorem decodeList_unrecognized {l : List String} {s : String} (hs : s ∈ l)
    (hu : ExecutionStatus.from_str s = none) :
    ∃ t, ExecutionStatus.from_str t = none ∧
      decodeList l = .error (.unrecognizedStatus t) := by
  induction l with
  | nil => cases hs
  | cons x rest ih =>
    cases hfx : ExecutionStatus.from_str x with
    | none => exact ⟨x, hfx, by simp [decodeList, hfx]⟩
    | some v =>
      have hsr : s ∈ rest := by
        rcases List.mem_cons.mp hs with h | h
        · subst h; rw [hu] at hfx; cases hfx
        · exact h
      obtain ⟨t, ht, hrest⟩ := ih hsr
      exact ⟨t, ht, by simp [decodeList, hfx, hrest]⟩

/-! ## Claim theorems: the codec and order construction -/

/-- C3: contrary to the claim, decoding an empty sequence of
execution-status names does not return the zero bitmask: the code is
`reduce(ior, [])` with no initial value, which raises `TypeError`.
This theorem evaluates the embedded code at the failing input. -/
theorem get_execution_code_empty_raises :
    get_execution_code [] = .error .emptyReduce := rfl

/-- C9: `Order.__init__` raises `ValueError` exactly when the amount is
not strictly positive, and otherwise produces an order carrying the
given loan id, amount and portfolio id. -/
theorem Order_init_spec (loan_id : Int) (amount : Rat) (portfolio_id : Option Int) :
    (amount ≤ 0 → Order.init loan_id amount portfolio_id = .error .amountNotPositive) ∧
    (0 < amount → Order.init loan_id amount portfolio_id =
      .ok ⟨loan_id, amount, portfolio_id⟩) := by
  constructor
  · intro h; simp [Order.init, h]
  · intro h; simp [Order.init, not_le.mpr h]

/-- Witness for C9 at concrete amounts `25`, `0` and `-3`. -/
theorem Order_init_spec_witness :
    Order.init 12345 25 none = .ok ⟨12345, 25, none⟩ ∧
    Order.init 12345 0 none = .error .amountNotPositive ∧
    Order.init 12345 (-3) none = .error .amountNotPositive :=
  ⟨(Order_init_spec 12345 25 none).2 (by norm_num),
   (Order_init_spec 12345 0 none).1 (by norm_num),
   (Order_init_spec 12345 (-3) none).1 (by norm_num)⟩

/-- C8: a status-name sequence containing any unrecognized name makes
`get_execution_code` fail with an unrecognized-status decode error,
whatever the position of the bad name; it is never dropped or coerced. -/
theorem get_execution_code_unrecognized_fails (l : List String) (s : String)
    (hs : s ∈ l) (hu : ExecutionStatus.from_str s = none) :
    ∃ t, ExecutionStatus.from_str t = none ∧
      get_execution_code l = .error (.unrecognizedStatus t) := by
  obtain ⟨t, ht, hd⟩ := decodeList_unrecognized hs hu
  exact ⟨t, ht, by simp [get_execution_code, hd]⟩

/-- Witness for C8: an unrecognized name in second position makes the
decode fail. -/
theorem get_execution_code_unrecognized_fails_witness :
    get_execution_code ["ORDER_FULFILLED", "BOGUS_STATUS"] ≠ .ok 1 := by
  obtain ⟨t, ht, hd⟩ := get_execution_code_unrecognized_fails
    ["ORDER_FULFILLED", "BOGUS_STATUS"] "BOGUS_STATUS" (by simp) rfl
  rw [hd]
  exact fun h => Except.noConfusion h

/-- C7: on a non-empty list of recognized status names the decode
succeeds, is invariant under permutation of the input, and sets exactly
the bits set by some input flag. -/
theorem get_execution_code_bitmask (l : List String) (hne : l ≠ [])
    (hrec : ∀ s ∈ l, (ExecutionStatus.from_str s).isSome = true) :
    ∃ code, get_execution_code l = .ok code ∧
      (∀ l', l'.Perm l → get_execution_code l' = .ok code) ∧
      ∀ i, code.testBit i = true ↔
        ∃ s ∈ l, ∃ v, ExecutionStatus.from_str s = some v ∧ v.testBit i = true := by
  refine ⟨orAll (l.map fun s => (ExecutionStatus.from_str s).getD 0),
    get_execution_code_ok l hne hrec, ?_, ?_⟩
  · intro l' hperm
    have hne' : l' ≠ [] := by
      intro h0
      subst h0
      exact hne (List.Perm.eq_nil hperm.symm)
    have hrec' : ∀ s ∈ l', (ExecutionStatus.from_str s).isSome = true :=
      fun s hs => hrec s (hperm.mem_iff.mp hs)
    rw [get_execution_code_ok l' hne' hrec']
    exact congrArg _ (orAll_perm (hperm.map _))
  · intro i
    rw [orAll_testBit, List.any_eq_true]
    constructor
    · rintro ⟨x, hx, hbit⟩
      obtain ⟨s, hs, rfl⟩ := List.mem_map.mp hx
      obtain ⟨v, hv⟩ := Option.isSome_iff_exists.mp (hrec s hs)
      refine ⟨s, hs, v, hv, ?_⟩
      simpa [hv] using hbit
    · rintro ⟨s, hs, v, hv, hbit⟩
      refine ⟨(ExecutionStatus.from_str s).getD 0, List.mem_map.mpr ⟨s, hs, rfl⟩, ?_⟩
      simpa [hv] using hbit

/-- Witness for C7: `["ORDER_FULFILLED","REQUESTED_AMNT_ROUNDED"]`
decodes to `1 ||| 16 = 17`, in either order. -/
theorem get_execution_code_bitmask_witness :
    get_execution_code ["ORDER_FULFILLED", "REQUESTED_AMNT_ROUNDED"] = .ok 17 ∧
    get_execution_code ["REQUESTED_AMNT_ROUNDED", "ORDER_FULFILLED"] = .ok 17 := by
  obtain ⟨code, h1, h2, _⟩ :=
    get_execution_code_bitmask ["ORDER_FULFILLED", "REQUESTED_AMNT_ROUNDED"]
      (by simp) (by decide)
  have h17 : get_execution_code ["ORDER_FULFILLED", "REQUESTED_AMNT_ROUNDED"]
      = .ok 17 := rfl
  rw [h1] at h17
  have hcode : code = 17 := Except.ok.inj h17
  subst hcode
  exact ⟨h1, h2 _ (List.Perm.swap "ORDER_FULFILLED" "REQUESTED_AMNT_ROUNDED" [])⟩

/-! ## Helper lemmas about the ledger update -/

theorem final_log_order_eq_error (now : Nat) (db : List OrderRow) (ack : Ack)
    (e : DecodeError)
    (hb : buildOrderList ack.orderInstructId ack.orderConfirmations = .error e) :
    final_log_order now db ack = ((db, []), .error e) := by
  unfold final_log_order
  rw [hb]

theorem final_log_order_eq_ok (now : Nat) (db : List OrderRow) (ack : Ack)
    (ods : List OrderDict)
    (hb : buildOrderList ack.orderInstructId ack.orderConfirmations = .ok ods) :
    final_log_order now db ack =
      ((ods.foldl (applyUpdate now) db,
        ods.map Event.update ++ [Event.commit]), .ok ()) := by
  unfold final_log_order
  rw [hb]

theorem rowMatches_updateRow (now : Nat) (od : OrderDict) (l : Int) (a : Rat)
    (r : OrderRow) : rowMatches l a (updateRow now od r) = false := by
  simp [rowMatches, updateRow]

theorem mem_applyUpdate {now : Nat} {db : List OrderRow} {od : OrderDict}
    {r : OrderRow} (hr : r ∈ applyUpdate now db od) :
    (∃ r0 ∈ db, r = updateRow now od r0) ∨
      (r ∈ db ∧ rowMatches od.loan_id od.requested_amount r = false) := by
  unfold applyUpdate at hr
  obtain ⟨r0, hr0, heq⟩ := List.mem_map.mp hr
  by_cases h : rowMatches od.loan_id od.requested_amount r0 = true
  · left
    exact ⟨r0, hr0, by rw [← heq, if_pos h]⟩
  · right
    have heq' : r = r0 := by rw [← heq, if_neg h]
    subst heq'
    exact ⟨hr0, Bool.eq_false_iff.mpr h⟩

theorem rowMatches_false_applyUpdate (now : Nat) (od : OrderDict)
    (db : List OrderRow) (l : Int) (a : Rat)
    (h : ∀ r ∈ db, rowMatches l a r = false) :
    ∀ r ∈ applyUpdate now db od, rowMatches l a r = false := by
  intro r hr
  rcases mem_applyUpdate hr with ⟨r0, _, rfl⟩ | ⟨hrdb, _⟩
  · exact rowMatches_updateRow now od l a r0
  · exact h r hrdb

theorem rowMatches_applyUpdate_self (now : Nat) (od : OrderDict)
    (db : List OrderRow) :
    ∀ r ∈ applyUpdate now db od,
      rowMatches od.loan_id od.requested_amount r = false := by
  intro r hr
  rcases mem_applyUpdate hr with ⟨r0, _, rfl⟩ | ⟨_, hfalse⟩
  · exact rowMatches_updateRow now od _ _ r0
  · exact hfalse

theorem rowMatches_false_foldl (now : Nat) (ods : List OrderDict) :
    ∀ (db : List OrderRow) (l : Int) (a : Rat),
      (∀ r ∈ db, rowMatches l a r = false) →
      ∀ r ∈ ods.foldl (applyUpdate now) db, rowMatches l a r = false := by
  induction ods with
  | nil => intro db l a h; exact h
  | cons od rest ih =>
    intro db l a h r hr
    rw [List.foldl_cons] at hr
    exact ih (applyUpdate now db od) l a
      (rowMatches_false_applyUpdate now od db l a h) r hr

theorem rowMatches_foldl_self (now : Nat) (ods : List OrderDict) :
    ∀ (db : List OrderRow), ∀ od ∈ ods,
      ∀ r ∈ ods.foldl (applyUpdate now) db,
        rowMatches od.loan_id od.requested_amount r = false := by
  induction ods with
  | nil => intro db od h; cases h
  | cons od0 rest ih =>
    intro db od hod r hr
    rw [List.foldl_cons] at hr
    rcases List.mem_cons.mp hod with rfl | hmem
    · exact rowMatches_false_foldl now rest _ _ _
        (rowMatches_applyUpdate_self now od db) r hr
    · exact ih _ od hmem r hr

theorem applyUpdate_id (now : Nat) (od : OrderDict) :
    ∀ db : List OrderRow,
      (∀ r ∈ db, rowMatches od.loan_id od.requested_amount r = false) →
      applyUpdate now db od = db := by
  intro db
  induction db with
  | nil => intro _; rfl
  | cons r rest ih =>
    intro h
    have h0 := h r (List.mem_cons_self r rest)
    have hrest := ih fun x hx => h x (List.mem_cons_of_mem r hx)
    unfold applyUpdate at hrest ⊢
    rw [List.map_cons, if_neg (by simp [h0]), hrest]

theorem foldl_applyUpdate_id (now : Nat) :
    ∀ (ods : List OrderDict) (db : List OrderRow),
      (∀ od ∈ ods, ∀ r ∈ db, rowMatches od.loan_id od.requested_amount r = false) →
      ods.foldl (applyUpdate now) db = db := by
  intro ods
  induction ods with
  | nil => intro db _; rfl
  | cons od rest ih =>
    intro db h
    rw [List.foldl_cons, applyUpdate_id now od db (h od (List.mem_cons_self od rest))]
    exact ih db fun od' hod' => h od' (List.mem_cons_of_mem od hod')

theorem buildOrderList_keys (instruct : String) :
    ∀ (cs : List OrderConfirmation) (ods : List OrderDict),
      buildOrderList instruct cs = .ok ods →
      ∀ c ∈ cs, ∃ od ∈ ods,
        od.loan_id = c.loanId ∧ od.requested_amount = c.requestedAmount := by
  intro cs
  induction cs with
  | nil => intro ods _ c hc; cases hc
  | cons c0 rest ih =>
    intro ods h c hc
    unfold buildOrderList at h
    cases hg : get_execution_code c0.executionStatus with
    | error e => rw [hg] at h; cases h
    | ok code =>
      rw [hg] at h
      cases hb : buildOrderList instruct rest with
      | error e => rw [hb] at h; cases h
      | ok ods' =>
        rw [hb] at h
        cases h
        rcases List.mem_cons.mp hc with rfl | hmem
        · exact ⟨⟨c.loanId, c.requestedAmount, c.investedAmount, code, instruct⟩,
            List.mem_cons_self _ _, rfl, rfl⟩
        · obtain ⟨od, hod, h1, h2⟩ := ih ods' hb c hmem
          exact ⟨od, List.mem_cons_of_mem _ hod, h1, h2⟩

theorem buildOrderList_error_of_decode_failure (instruct : String) :
    ∀ cs : List OrderConfirmation,
      (∃ c ∈ cs, ∃ e, get_execution_code c.executionStatus = .error e) →
      ∃ e', buildOrderList instruct cs = .error e' := by
  intro cs
  induction cs with
  | nil => rintro ⟨c, hc, _⟩; cases hc
  | cons c0 rest ih =>
    rintro ⟨c, hc, e, he⟩
    cases hg : get_execution_code c0.executionStatus with
    | error e0 => exact ⟨e0, by unfold buildOrderList; rw [hg]⟩
    | ok code =>
      have hcr : c ∈ rest := by
        rcases List.mem_cons.mp hc with rfl | hm
        · rw [he] at hg; cases hg
        · exact hm
      obtain ⟨e', hb⟩ := ih ⟨c, hcr, e, he⟩
      exact ⟨e', by unfold buildOrderList; rw [hg, hb]⟩

/-! ## Claim theorems: the ledger -/

/-- C2: reconciliation is idempotent. When `final_log_order` succeeds,
every confirmation's match predicate (`loan_id`, `requested_amount`,
`execution_code IS NULL`) matches zero rows of the resulting ledger, so
re-delivering the same acknowledgment updates zero rows and leaves the
ledger unchanged. -/
theorem final_log_order_idempotent (now now' : Nat) (db db' : List OrderRow)
    (evs : List Event) (ack : Ack)
    (h : final_log_order now db ack = ((db', evs), .ok ())) :
    (∀ c ∈ ack.orderConfirmations,
      countMatches c.loanId c.requestedAmount db' = 0) ∧
    final_log_order now' db' ack = ((db', evs), .ok ()) := by
  cases hb : buildOrderList ack.orderInstructId ack.orderConfirmations with
  | error e =>
    rw [final_log_order_eq_error now db ack e hb] at h
    exact absurd (congrArg Prod.snd h) (by simp)
  | ok ods =>
    rw [final_log_order_eq_ok now db ack ods hb] at h
    have hdb : ods.foldl (applyUpdate now) db = db' := by
      simpa using congrArg (fun p => p.1.1) h
    have hev : ods.map Event.update ++ [Event.commit] = evs := by
      simpa using congrArg (fun p => p.1.2) h
    refine ⟨?_, ?_⟩
    · intro c hc
      obtain ⟨od, hod, h1, h2⟩ :=
        buildOrderList_keys ack.orderInstructId ack.orderConfirmations ods hb c hc
      have hall : ∀ r ∈ db', rowMatches c.loanId c.requestedAmount r = false := by
        intro r hr
        rw [← h1, ← h2]
        apply rowMatches_foldl_self now ods db od hod r
        rw [hdb]
        exact hr
      unfold countMatches
      rw [List.length_eq_zero, List.filter_eq_nil_iff]
      intro r hr
      simp [hall r hr]
    · rw [final_log_order_eq_ok now' db' ack ods hb, hev]
      have hnoop : ods.foldl (applyUpdate now') db' = db' := by
        apply foldl_applyUpdate_id
        intro od hod r hr
        apply rowMatches_foldl_self now ods db od hod r
        rw [hdb]
        exact hr
      rw [hnoop]

/-- Witness for C2: the acknowledgment for loan 12345 resolves the
intent row at the first delivery; at the second delivery it matches
zero rows and the ledger is unchanged. -/
theorem final_log_order_idempotent_witness :
    countMatches 12345 25 [⟨12345, 2, 25, some 25, some "X1", some 5, some 1⟩] = 0 ∧
    final_log_order 9 [⟨12345, 2, 25, some 25, some "X1", some 5, some 1⟩]
        ⟨"X1", [⟨12345, 25, 25, ["ORDER_FULFILLED"]⟩]⟩ =
      (([⟨12345, 2, 25, some 25, some "X1", some 5, some 1⟩],
        [Event.update ⟨12345, 25, 25, 1, "X1"⟩, Event.commit]), .ok ()) := by
  obtain ⟨h1, h2⟩ := final_log_order_idempotent 5 9
    [⟨12345, 2, 25, none, none, none, none⟩]
    [⟨12345, 2, 25, some 25, some "X1", some 5, some 1⟩]
    [Event.update ⟨12345, 25, 25, 1, "X1"⟩, Event.commit]
    ⟨"X1", [⟨12345, 25, 25, ["ORDER_FULFILLED"]⟩]⟩
    (by rfl)
  exact ⟨h1 ⟨12345, 25, 25, ["ORDER_FULFILLED"]⟩ (by simp), h2⟩

/-- C6: for a confirmation whose statuses decode to `code`,
`final_log_order` rewrites every ledger row matching
`(loanId, requestedAmount, execution_code IS NULL)` to carry the
confirmation's invested amount, the acknowledgment's shared instruct
id, the current timestamp and `code`, and leaves every other row
untouched. -/
theorem final_log_order_updates_matching (now : Nat) (db : List OrderRow)
    (instruct : String) (c : OrderConfirmation) (code : Nat)
    (h : get_execution_code c.executionStatus = .ok code) :
    final_log_order now db ⟨instruct, [c]⟩ =
      ((db.map fun r =>
          if rowMatches c.loanId c.requestedAmount r
          then updateRow now ⟨c.loanId, c.requestedAmount, c.investedAmount,
            code, instruct⟩ r
          else r,
        [Event.update ⟨c.loanId, c.requestedAmount, c.investedAmount,
          code, instruct⟩, Event.commit]), .ok ()) := by
  have hb : buildOrderList instruct [c] =
      .ok [⟨c.loanId, c.requestedAmount, c.investedAmount, code, instruct⟩] := by
    unfold buildOrderList
    rw [h]
    rfl
  rw [final_log_order_eq_ok now db ⟨instruct, [c]⟩ _ hb]
  rfl

/-- Witness for C6: the spec's end-to-end example — the intent row for
loan 12345 becomes
`{investedAmount: 25, externalOrderId: "X1", acknowledgedAt: 7,
executionCode: 1}`. -/
theorem final_log_order_updates_matching_witness :
    final_log_order 7 [⟨12345, 2, 25, none, none, none, none⟩]
        ⟨"X1", [⟨12345, 25, 25, ["ORDER_FULFILLED"]⟩]⟩ =
      (([⟨12345, 2, 25, some 25, some "X1", some 7, some 1⟩],
        [Event.update ⟨12345, 25, 25, 1, "X1"⟩, Event.commit]), .ok ()) := by
  have h := final_log_order_updates_matching 7
    [⟨12345, 2, 25, none, none, none, none⟩] "X1"
    ⟨12345, 25, 25, ["ORDER_FULFILLED"]⟩ 1 rfl
  rw [h]
  rfl

/-- C10: `final_log_order` decodes every confirmation before opening a
cursor; if any confirmation's statuses fail to decode, it raises with
the ledger untouched and no update executed. -/
theorem final_log_order_decode_failure_aborts (now : Nat) (db : List OrderRow)
    (ack : Ack)
    (h : ∃ c ∈ ack.orderConfirmations, ∃ e,
      get_execution_code c.executionStatus = .error e) :
    ∃ e', final_log_order now db ack = ((db, []), .error e') := by
  obtain ⟨e', hb⟩ :=
    buildOrderList_error_of_decode_failure ack.orderInstructId
      ack.orderConfirmations h
  exact ⟨e', final_log_order_eq_error now db ack e' hb⟩

/-- Witness for C10: an acknowledgment carrying an unrecognized status
name leaves the ledger unchanged and does not return normally. -/
theorem final_log_order_decode_failure_aborts_witness :
    (final_log_order 0 [⟨1, 2, 25, none, none, none, none⟩]
      ⟨"X1", [⟨1, 25, 25, ["BOGUS_STATUS"]⟩]⟩).1.1 =
        [⟨1, 2, 25, none, none, none, none⟩] ∧
    (final_log_order 0 [⟨1, 2, 25, none, none, none, none⟩]
      ⟨"X1", [⟨1, 25, 25, ["BOGUS_STATUS"]⟩]⟩).2 ≠ .ok () := by
  obtain ⟨e', he⟩ := final_log_order_decode_failure_aborts 0
    [⟨1, 2, 25, none, none, none, none⟩]
    ⟨"X1", [⟨1, 25, 25, ["BOGUS_STATUS"]⟩]⟩
    ⟨⟨1, 25, 25, ["BOGUS_STATUS"]⟩, by simp,
      ⟨.unrecognizedStatus "BOGUS_STATUS", rfl⟩⟩
  rw [he]
  exact ⟨rfl, fun hcontra => Except.noConfusion hcontra⟩

/-! ## Helper lemmas about the session -/

theorem gateLoop_none (check : Order → Bool) :
    ∀ (orders : List Order) (pack : List LCOrder),
      (∃ o ∈ orders, check o = false) → gateLoop check orders pack = none := by
  intro orders
  induction orders with
  | nil => rintro pack ⟨o, ho, _⟩; cases ho
  | cons o0 rest ih =>
    rintro pack ⟨o, ho, hfo⟩
    unfold gateLoop
    cases hc : check o0 with
    | false => simp [hc]
    | true =>
      have hor : o ∈ rest := by
        rcases List.mem_cons.mp ho with rfl | hm
        · rw [hfo] at hc; cases hc
        · exact hm
      simp only [hc, if_true]
      exact ih _ ⟨o, hor, hfo⟩

theorem gateLoop_all (check : Order → Bool) :
    ∀ (orders : List Order) (pack : List LCOrder),
      (∀ o ∈ orders, check o = true) →
      gateLoop check orders pack = some (pack ++ orders.map toLCOrder) := by
  intro orders
  induction orders with
  | nil => intro pack _; simp [gateLoop]
  | cons o0 rest ih =>
    intro pack h
    have hc := h o0 (List.mem_cons_self o0 rest)
    unfold gateLoop
    simp only [hc, if_true]
    rw [ih (pack ++ [toLCOrder o0]) fun o ho => h o (List.mem_cons_of_mem o0 ho)]
    simp

theorem submit_orders_eq_approved (check : Order → Bool)
    (clientAck : Int → List LCOrder → Ack) (now : Nat) (db : List OrderRow)
    (investor_id client_id : Int) (orders : List Order) (pack : List LCOrder)
    (hg : gateLoop check orders [] = some pack) :
    submit_orders check clientAck now db investor_id client_id orders =
      (((final_log_order now (db ++ pack.map (intentRow client_id))
          (clientAck investor_id pack)).1.1,
        ((pack.map fun lc => Event.insert (intentRow client_id lc)) ++ [Event.commit])
          ++ [Event.clientCall investor_id pack]
          ++ (final_log_order now (db ++ pack.map (intentRow client_id))
            (clientAck investor_id pack)).1.2),
       (final_log_order now (db ++ pack.map (intentRow client_id))
         (clientAck investor_id pack)).2) := by
  unfold submit_orders
  rw [hg]
  cases hf : final_log_order now (db ++ pack.map (intentRow client_id))
      (clientAck investor_id pack) with
  | mk p res =>
    cases p with
    | mk dbX evF =>
      cases res with
      | error e => simp [preliminary_log_order, hf]
      | ok u => cases u; simp [preliminary_log_order, hf]

theorem applyUpdate_length (now : Nat) (db : List OrderRow) (od : OrderDict) :
    (applyUpdate now db od).length = db.length := by
  simp [applyUpdate]

theorem foldl_applyUpdate_length (now : Nat) :
    ∀ (ods : List OrderDict) (db : List OrderRow),
      (ods.foldl (applyUpdate now) db).length = db.length := by
  intro ods
  induction ods with
  | nil => intro db; rfl
  | cons od rest ih =>
    intro db
    rw [List.foldl_cons, ih, applyUpdate_length]

theorem final_log_order_fst_length (now : Nat) (db : List OrderRow) (ack : Ack) :
    ((final_log_order now db ack).1.1).length = db.length := by
  cases hb : buildOrderList ack.orderInstructId ack.orderConfirmations with
  | error e => rw [final_log_order_eq_error now db ack e hb]
  | ok ods =>
    rw [final_log_order_eq_ok now db ack ods hb]
    exact foldl_applyUpdate_length now ods db

theorem final_log_order_snd_no_insert (now : Nat) (db : List OrderRow) (ack : Ack) :
    ∀ ev ∈ (final_log_order now db ack).1.2, ∀ row, ev ≠ Event.insert row := by
  cases hb : buildOrderList ack.orderInstructId ack.orderConfirmations with
  | error e =>
    rw [final_log_order_eq_error now db ack e hb]
    intro ev hev
    simp at hev
  | ok ods =>
    rw [final_log_order_eq_ok now db ack ods hb]
    intro ev hev row
    rcases List.mem_append.mp hev with hm | hm
    · obtain ⟨od, _, rfl⟩ := List.mem_map.mp hm
      simp
    · rw [List.mem_singleton] at hm
      subst hm
      simp

/-! ## Claim theorems: the session -/

/-- C1: if the risk gate rejects any order of the batch,
`submit_orders` performs no side effects: no event (insert, commit or
client call) occurs and the ledger is unchanged — also for orders
approved before the rejected one. -/
theorem submit_orders_risk_rejected_no_side_effects (check : Order → Bool)
    (clientAck : Int → List LCOrder → Ack) (now : Nat) (db : List OrderRow)
    (investor_id client_id : Int) (orders : List Order)
    (h : ∃ o ∈ orders, check o = false) :
    submit_orders check clientAck now db investor_id client_id orders =
      ((db, []), .ok ()) := by
  unfold submit_orders
  rw [gateLoop_none check orders [] h]

/-- Witness for C1: a two-order batch whose orders fail the risk check
leaves the ledger empty and produces no events. -/
theorem submit_orders_risk_rejected_no_side_effects_witness :
    submit_orders (fun _ => false) (fun _ _ => ⟨"X1", []⟩) 0 [] 7 2
      [⟨12345, 25, none⟩, ⟨777, 50, none⟩] = (([], []), .ok ()) :=
  submit_orders_risk_rejected_no_side_effects _ _ _ _ _ _ _
    ⟨⟨12345, 25, none⟩, by simp, rfl⟩

/-- C4: contrary to the claim, a risk-rejected batch does not fail:
`submit_order` and `submit_orders` return normally (Python `None`,
here `.ok ()`), exactly the value a fully successful run returns, so
the caller cannot distinguish rejection from success. This theorem
evaluates the embedded code on a rejected single order, a rejected
batch, and a fully successful batch: all three return `.ok ()`. -/
theorem submit_orders_rejection_returns_normally :
    (submit_order (fun _ => false) (fun _ _ => ⟨"X1", []⟩) 0 [] 7 2
      ⟨12345, 25, none⟩).2 = .ok () ∧
    (submit_orders (fun _ => false) (fun _ _ => ⟨"X1", []⟩) 0 [] 7 2
      [⟨12345, 25, none⟩]).2 = .ok () ∧
    (submit_orders (fun _ => true)
      (fun _ _ => ⟨"X1", [⟨12345, 25, 25, ["ORDER_FULFILLED"]⟩]⟩) 0 [] 7 2
      [⟨12345, 25, none⟩]).2 = .ok () :=
  ⟨rfl, rfl, rfl⟩

/-- C5: when the risk gate approves every order of the batch, the event
trace starts with exactly one intent insert per order (each row with
all outcome fields null), followed by one commit, followed by the
client invocation; no insert ever happens afterwards, and the final
ledger has exactly `orders.length` more rows than before. -/
theorem submit_orders_intent_before_submission (check : Order → Bool)
    (clientAck : Int → List LCOrder → Ack) (now : Nat) (db : List OrderRow)
    (investor_id client_id : Int) (orders : List Order)
    (h : ∀ o ∈ orders, check o = true) :
    ∃ tailEvents dbF res,
      submit_orders check clientAck now db investor_id client_id orders =
        ((dbF,
          (orders.map fun o => Event.insert (intentRow client_id (toLCOrder o)))
            ++ [Event.commit,
                Event.clientCall investor_id (orders.map toLCOrder)]
            ++ tailEvents), res) ∧
      (∀ ev ∈ tailEvents, ∀ row, ev ≠ Event.insert row) ∧
      dbF.length = db.length + orders.length := by
  have hg : gateLoop check orders [] = some (orders.map toLCOrder) := by
    simpa using gateLoop_all check orders [] h
  rw [submit_orders_eq_approved check clientAck now db investor_id client_id
    orders (orders.map toLCOrder) hg]
  refine ⟨(final_log_order now
      (db ++ (orders.map toLCOrder).map (intentRow client_id))
      (clientAck investor_id (orders.map toLCOrder))).1.2,
    (final_log_order now
      (db ++ (orders.map toLCOrder).map (intentRow client_id))
      (clientAck investor_id (orders.map toLCOrder))).1.1,
    (final_log_order now
      (db ++ (orders.map toLCOrder).map (intentRow client_id))
      (clientAck investor_id (orders.map toLCOrder))).2, ?_, ?_, ?_⟩
  · simp [List.map_map, List.append_assoc, Function.comp]
  · exact final_log_order_snd_no_insert now _ _
  · rw [final_log_order_fst_length]
    simp

/-- Witness for C5: submitting one approved order grows the ledger from
zero rows to one. -/
theorem submit_orders_intent_before_submission_witness :
    (submit_orders (fun _ => true)
      (fun _ _ => ⟨"X1", [⟨12345, 25, 25, ["ORDER_FULFILLED"]⟩]⟩) 0 [] 7 2
      [⟨12345, 25, none⟩]).1.1.length = 0 + 1 := by
  obtain ⟨tl, dbF, res, heq, hni, hlen⟩ :=
    submit_orders_intent_before_submission (fun _ => true)
      (fun _ _ => ⟨"X1", [⟨12345, 25, 25, ["ORDER_FULFILLED"]⟩]⟩) 0 [] 7 2
      [⟨12345, 25, none⟩] (fun o ho => rfl)
  rw [heq]
  simpa using hlen

end Lending
